import Mathlib

/-!
Shallow embedding of the RAG chatbot core of the TempAI repository
(`src/rag_chatbot/video_processor.py` and `src/rag_chatbot/qa_engine.py`),
together with theorems settling the frozen claims about chunking,
ingestion idempotency and the question-answering engine.

Texts are modelled as `List Char`; Python integers as `Int`; Python
slice/`str.rfind` index normalisation (negative indices count from the end,
out-of-range indices clamp) is modelled explicitly.  The `while` loop of
`_chunk_text` is modelled with explicit fuel, because its termination is
one of the claims under scrutiny.
-/

/-- Python `str.isspace` on the ASCII whitespace characters (the only ones
relevant to this code base). -/
def isPySpace (c : Char) : Bool :=
  c = ' ' || c = '\t' || c = '\n' || c = '\r' || c = '\x0b' || c = '\x0c'

/-- Python `str.strip()`: drop leading and trailing whitespace. -/
def pyStrip (l : List Char) : List Char :=
  ((l.dropWhile isPySpace).reverse.dropWhile isPySpace).reverse

/-- Normalise a Python slice index for a sequence of length `L`: negative
indices count from the end (clamped below at 0), positive ones clamp at `L`. -/
def pyIdx (L : Nat) (i : Int) : Nat :=
  if i < 0 then ((L : Int) + i).toNat else min i.toNat L

/-- Python slicing `s[a:b]` with full slice-index normalisation. -/
def pySlice (s : List Char) (a b : Int) : List Char :=
  (s.take (pyIdx s.length b)).drop (pyIdx s.length a)

/-- Whether `sub` occurs in `s` starting exactly at (0-based) position `k`. -/
def matchesAt (s sub : List Char) (k : Nat) : Bool :=
  (s.drop k).take sub.length == sub

/-- Backward search used to model `str.rfind`: the largest position `m` with
`lo ≤ m ≤ k` such that `sub` matches `s` at `m`, if any. -/
def rfindDown (s sub : List Char) (lo : Nat) : Nat → Option Nat
  | 0 => if lo = 0 ∧ matchesAt s sub 0 = true then some 0 else none
  | k + 1 =>
    if lo ≤ k + 1 ∧ matchesAt s sub (k + 1) = true then some (k + 1)
    else rfindDown s sub lo k

/-- Python `s.rfind(sub, a, b)`: highest index `m` such that `sub` is contained
in `s[a:b]` starting at `m`, or `-1` when there is none.  `a` and `b` are
normalised as in slice notation. -/
def pyRfind (s sub : List Char) (a b : Int) : Int :=
  let i := pyIdx s.length a
  let j := pyIdx s.length b
  if sub.length ≤ j then
    match rfindDown s sub i (j - sub.length) with
    | some m => (m : Int)
    | none => -1
  else -1

/-- The sentence-terminal patterns of `_chunk_text`, in source order. -/
def separators : List (List Char) :=
  [['.', ' '], ['.', '\n'], ['!', ' '], ['?', '\n'], ['?', ' ']]

/-- The sentence-boundary adjustment of `_chunk_text`: for the first separator
(in source order) whose `rfind` over the window `[start, e0)` succeeds, cut at
that position plus one; otherwise keep the raw window edge `e0`. -/
def sepCut (text : List Char) (start e0 : Int) : Int :=
  match separators.findSome? (fun sep =>
      let last := pyRfind text sep start e0
      if last ≠ -1 then some (last + 1) else none) with
  | some e => e
  | none => e0

/-- One fuel-counted run of the `while start < text_length` loop of
`_chunk_text`.  Each fuel unit pays for one loop iteration; `none` means the
fuel ran out with the loop still running. -/
def chunkLoop (text : List Char) (chunk_size chunk_overlap : Int) :
    Nat → Int → List (List Char) → Option (List (List Char))
  | 0, start, acc =>
    if start < (text.length : Int) then none else some acc
  | fuel + 1, start, acc =>
    if start < (text.length : Int) then
      let e0 := start + chunk_size
      let endv := if e0 < (text.length : Int) then sepCut text start e0 else e0
      let chunk := pyStrip (pySlice text start endv)
      let acc2 := if chunk.isEmpty then acc else acc ++ [chunk]
      let start2 := if endv < (text.length : Int) then endv - chunk_overlap
                    else (text.length : Int)
      chunkLoop text chunk_size chunk_overlap fuel start2 acc2
    else some acc

/-- `VideoProcessor._chunk_text`, fuel-indexed.  Returns `some chunks` when the
loop finishes within `fuel` iterations and `none` otherwise. -/
def chunk_text (text : List Char) (chunk_size chunk_overlap : Int) (fuel : Nat) :
    Option (List (List Char)) :=
  if text.isEmpty then some [] else chunkLoop text chunk_size chunk_overlap fuel 0 []

example : chunk_text "a. b! cxyz".data 7 0 5 = some ["a.".data, "b!".data, "cxyz".data] := by
  decide

example : chunk_text "".data 5 1 3 = some [] := by decide

/-!
Claim C1 concerns termination of the chunking loop.  The loop does NOT
terminate on every input with `chunk_size > 0` and
`chunk_overlap ∈ [0, chunk_size)`: on the 24-character text below with
`chunk_size = 10` and `chunk_overlap = 9`, the sentence cut at position 2
drives the start pointer to `3 - 9 = -6`, Python's negative-index semantics
then make every slice empty and every `rfind` fail, and after six more
iterations the start pointer returns to `0`, closing a cycle
`0, -6, -5, -4, -3, -2, -1, 0, …` that repeats forever. -/
def badText : List Char := "ab. cccccccccccccccccccc".data

theorem badStep0 (n : Nat) (acc : List (List Char)) :
    chunkLoop badText 10 9 (n + 1) 0 acc =
      chunkLoop badText 10 9 n (-6) (acc ++ ["ab.".data]) := rfl

theorem badStep6 (n : Nat) (acc : List (List Char)) :
    chunkLoop badText 10 9 (n + 1) (-6) acc = chunkLoop badText 10 9 n (-5) acc := rfl

theorem badStep5 (n : Nat) (acc : List (List Char)) :
    chunkLoop badText 10 9 (n + 1) (-5) acc = chunkLoop badText 10 9 n (-4) acc := rfl

theorem badStep4 (n : Nat) (acc : List (List Char)) :
    chunkLoop badText 10 9 (n + 1) (-4) acc = chunkLoop badText 10 9 n (-3) acc := rfl

theorem badStep3 (n : Nat) (acc : List (List Char)) :
    chunkLoop badText 10 9 (n + 1) (-3) acc = chunkLoop badText 10 9 n (-2) acc := rfl

theorem badStep2 (n : Nat) (acc : List (List Char)) :
    chunkLoop badText 10 9 (n + 1) (-2) acc = chunkLoop badText 10 9 n (-1) acc := rfl

theorem badStep1 (n : Nat) (acc : List (List Char)) :
    chunkLoop badText 10 9 (n + 1) (-1) acc = chunkLoop badText 10 9 n 0 acc := rfl

/-- On `badText` with `chunk_size = 10, chunk_overlap = 9`, every start value
of the cycle leaves the loop running whatever fuel remains. -/
theorem chunkLoop_badText_cycle :
    ∀ (fuel : Nat) (start : Int) (acc : List (List Char)),
      start = 0 ∨ start = -6 ∨ start = -5 ∨ start = -4 ∨
      start = -3 ∨ start = -2 ∨ start = -1 →
      chunkLoop badText 10 9 fuel start acc = none := by
  intro fuel
  induction fuel with
  | zero =>
    intro start acc h
    rcases h with h | h | h | h | h | h | h <;> subst h <;> rfl
  | succ n ih =>
    intro start acc h
    rcases h with h | h | h | h | h | h | h <;> subst h
    · rw [badStep0]; exact ih _ _ (by norm_num)
    · rw [badStep6]; exact ih _ _ (by norm_num)
    · rw [badStep5]; exact ih _ _ (by norm_num)
    · rw [badStep4]; exact ih _ _ (by norm_num)
    · rw [badStep3]; exact ih _ _ (by norm_num)
    · rw [badStep2]; exact ih _ _ (by norm_num)
    · rw [badStep1]; exact ih _ _ (by norm_num)

/-- C1: refuted — the chunking loop of `_chunk_text` does NOT always terminate
for `chunk_size > 0` and `chunk_overlap ∈ [0, chunk_size)`.  On the concrete
text `"ab. " ++ "c" * 20` with `chunk_size = 10` and `chunk_overlap = 9`
(valid parameters: `0 < 10` and `9 ∈ [0, 10)`), the loop runs forever: no
amount of fuel makes it finish, because the start pointer cycles through
`0, -6, -5, -4, -3, -2, -1` indefinitely.  The spec explicitly requires that
overlap never cause infinite looping, so this is a bug in the code. -/
theorem chunk_text_badText_never_terminates :
    ∀ fuel : Nat, chunk_text badText 10 9 fuel = none := by
  intro fuel
  show chunkLoop badText 10 9 fuel 0 [] = none
  exact chunkLoop_badText_cycle fuel 0 [] (Or.inl rfl)

theorem rfindDown_none_iff (s sub : List Char) (lo : Nat) :
    ∀ k, rfindDown s sub lo k = none ↔
      ∀ m, lo ≤ m → m ≤ k → matchesAt s sub m = false := by
  intro k
  induction k with
  | zero =>
    constructor
    · intro h m h1 h2
      have hm : m = 0 := Nat.le_zero.mp h2
      subst hm
      by_contra hb
      rw [Bool.not_eq_false] at hb
      have hlo : lo = 0 := Nat.le_zero.mp h1
      simp only [rfindDown, hlo, hb, and_self, if_true] at h
      exact Option.noConfusion h
    · intro h
      simp only [rfindDown]
      split
      · rename_i hc
        have := h 0 (le_of_eq hc.1) (le_refl 0)
        rw [hc.2] at this
        exact absurd this (by simp)
      · rfl
  | succ k ih =>
    constructor
    · intro h m h1 h2
      simp only [rfindDown] at h
      split at h
      · exact absurd h (by simp)
      · rename_i hc
        rcases Nat.lt_or_ge m (k + 1) with hm | hm
        · exact (ih.mp h) m h1 (Nat.lt_succ_iff.mp hm)
        · have hmk : m = k + 1 := Nat.le_antisymm h2 hm
          subst hmk
          by_contra hb
          rw [Bool.not_eq_false] at hb
          exact hc ⟨h1, hb⟩
    · intro h
      simp only [rfindDown]
      split
      · rename_i hc
        have := h (k + 1) hc.1 (le_refl _)
        rw [hc.2] at this
        exact absurd this (by simp)
      · exact ih.mpr (fun m h1 h2 => h m h1 (Nat.le_succ_of_le h2))

theorem rfindDown_some_iff (s sub : List Char) (lo : Nat) :
    ∀ k m, rfindDown s sub lo k = some m ↔
      lo ≤ m ∧ m ≤ k ∧ matchesAt s sub m = true ∧
        ∀ m2, lo ≤ m2 → m2 ≤ k → matchesAt s sub m2 = true → m2 ≤ m := by
  intro k
  induction k with
  | zero =>
    intro m
    constructor
    · intro h
      simp only [rfindDown] at h
      split at h
      · rename_i hc
        cases h
        exact ⟨le_of_eq hc.1, le_refl 0, hc.2, fun m2 _ h2 _ => h2⟩
      · exact absurd h (by simp)
    · rintro ⟨h1, h2, h3, -⟩
      have hm : m = 0 := Nat.le_zero.mp h2
      subst hm
      have hlo : lo = 0 := Nat.le_zero.mp h1
      simp only [rfindDown, hlo, h3, and_self, if_true]
  | succ k ih =>
    intro m
    constructor
    · intro h
      simp only [rfindDown] at h
      split at h
      · rename_i hc
        cases h
        exact ⟨hc.1, le_refl _, hc.2, fun m2 _ h2 _ => h2⟩
      · rename_i hc
        obtain ⟨h1, h2, h3, h4⟩ := (ih m).mp h
        refine ⟨h1, Nat.le_succ_of_le h2, h3, ?_⟩
        intro m2 g1 g2 g3
        rcases Nat.lt_or_ge m2 (k + 1) with hm | hm
        · exact h4 m2 g1 (Nat.lt_succ_iff.mp hm) g3
        · have hg : m2 = k + 1 := Nat.le_antisymm g2 hm
          subst hg
          exact absurd ⟨g1, g3⟩ hc
    · rintro ⟨h1, h2, h3, h4⟩
      simp only [rfindDown]
      split
      · rename_i hc
        have hle := h4 (k + 1) hc.1 (le_refl _) hc.2
        have h5 : m = k + 1 := Nat.le_antisymm h2 hle
        rw [h5]
      · rename_i hc
        have hmk : m ≤ k := by
          rcases Nat.lt_or_ge m (k + 1) with hm | hm
          · exact Nat.lt_succ_iff.mp hm
          · have h5 : m = k + 1 := Nat.le_antisymm h2 hm
            subst h5
            exact absurd ⟨h1, h3⟩ hc
        exact (ih m).mpr ⟨h1, hmk, h3, fun m2 g1 g2 g3 => h4 m2 g1 (Nat.le_succ_of_le g2) g3⟩

def lastOcc (text sep : List Char) (i j : Nat) : Option Nat :=
  ((List.range (j + 1)).filter
      (fun m => decide (i ≤ m) && decide (m + sep.length ≤ j) && matchesAt text sep m)).max?

theorem natMax?_eq_some_iff (l : List Nat) (a : Nat) :
    l.max? = some a ↔ a ∈ l ∧ ∀ b ∈ l, b ≤ a := by
  refine List.max?_eq_some_iff ?_ ?_ ?_
  · exact fun x => le_refl x
  · exact fun x y => max_choice x y
  · exact fun x y z => max_le_iff

theorem pyRfind_eq_lastOcc (text sub : List Char) (a b : Int) :
    pyRfind text sub a b =
      match lastOcc text sub (pyIdx text.length a) (pyIdx text.length b) with
      | some m => (m : Int)
      | none => -1 := by
  rcases hl : lastOcc text sub (pyIdx text.length a) (pyIdx text.length b) with _ | m
  · simp only [pyRfind]
    split
    · rename_i hlen
      have hnone : rfindDown text sub (pyIdx text.length a)
          (pyIdx text.length b - sub.length) = none := by
        rw [rfindDown_none_iff]
        intro m h1 h2
        by_contra hb
        rw [Bool.not_eq_false] at hb
        have hmem : m ∈ (List.range (pyIdx text.length b + 1)).filter
            (fun m => decide (pyIdx text.length a ≤ m) &&
              decide (m + sub.length ≤ pyIdx text.length b) && matchesAt text sub m) := by
          rw [List.mem_filter]
          refine ⟨List.mem_range.mpr (by omega), ?_⟩
          simp only [Bool.and_eq_true, decide_eq_true_eq]
          exact ⟨⟨h1, by omega⟩, hb⟩
        rw [List.max?_eq_none_iff.mp hl] at hmem
        exact absurd hmem (List.not_mem_nil m)
      rw [hnone]
    · rfl
  · have hchar := (natMax?_eq_some_iff _ m).mp hl
    obtain ⟨hmem, hmax⟩ := hchar
    rw [List.mem_filter] at hmem
    obtain ⟨hrange, hpred⟩ := hmem
    simp only [Bool.and_eq_true, decide_eq_true_eq] at hpred
    obtain ⟨⟨him, hjm⟩, hmat⟩ := hpred
    simp only [pyRfind]
    have hlen : sub.length ≤ pyIdx text.length b := le_trans (Nat.le_add_left _ _) hjm
    rw [if_pos hlen]
    have hsome : rfindDown text sub (pyIdx text.length a)
        (pyIdx text.length b - sub.length) = some m := by
      rw [rfindDown_some_iff]
      refine ⟨him, by omega, hmat, ?_⟩
      intro m2 g1 g2 g3
      apply hmax
      rw [List.mem_filter]
      refine ⟨List.mem_range.mpr (by omega), ?_⟩
      simp only [Bool.and_eq_true, decide_eq_true_eq]
      exact ⟨⟨g1, by omega⟩, g3⟩
    rw [hsome]

/-- Modelled from the spec, amended: the window cut of the chunker picks the
FIRST pattern in the fixed order that occurs in the window and cuts after the
last occurrence of that pattern. -/
def cutSpec (text : List Char) (start e0 : Int) : Int :=
  match separators.findSome?
      (fun sep => lastOcc text sep (pyIdx text.length start) (pyIdx text.length e0)) with
  | some m => (m : Int) + 1
  | none => e0

/-- Modelled from the claim as stated: cut after the latest occurrence over
ALL five sentence-terminal patterns. -/
def cutLatestAll (text : List Char) (start e0 : Int) : Int :=
  match (separators.filterMap
      (fun sep => lastOcc text sep (pyIdx text.length start) (pyIdx text.length e0))).max? with
  | some m => (m : Int) + 1
  | none => e0

theorem findSome?_option_map {α β γ : Type} (g : β → γ) (f : α → Option β) :
    ∀ l : List α, l.findSome? (fun x => Option.map g (f x)) = Option.map g (l.findSome? f) := by
  intro l
  induction l with
  | nil => rfl
  | cons x xs ih =>
    simp only [List.findSome?_cons]
    rcases f x with _ | b
    · simpa using ih
    · rfl

theorem cutStep (text sub : List Char) (a b : Int) :
    (if pyRfind text sub a b ≠ -1 then some (pyRfind text sub a b + 1) else none) =
      Option.map (fun m : Nat => (m : Int) + 1)
        (lastOcc text sub (pyIdx text.length a) (pyIdx text.length b)) := by
  rw [pyRfind_eq_lastOcc]
  rcases lastOcc text sub (pyIdx text.length a) (pyIdx text.length b) with _ | m
  · simp
  · show (if (m : Int) ≠ -1 then some ((m : Int) + 1) else none) =
        Option.map (fun k : Nat => (k : Int) + 1) (some m)
    rw [if_pos (show (m : Int) ≠ -1 by omega)]
    rfl

/-- C2 (amended): whenever the window edge is inside the text, `_chunk_text`
cuts after the last occurrence, within the window, of the FIRST pattern in the
fixed order `". ", ".\n", "! ", "?\n", "? "` that occurs anywhere in the
window — not after the latest position over all five patterns — and cuts at
the raw window edge exactly when none of the five patterns occurs.  The cut is
inclusive of the terminator's punctuation character (position plus one).
`cutSpec` is the spec-worded formulation; the theorem proves the source's
backward search (`sepCut`, via `pyRfind`) refines it on every input. -/
theorem sepCut_eq_cutSpec (text : List Char) (start e0 : Int) :
    sepCut text start e0 = cutSpec text start e0 := by
  unfold sepCut cutSpec
  have h : (separators.findSome? (fun sep =>
      let last := pyRfind text sep start e0
      if last ≠ -1 then some (last + 1) else none)) =
      Option.map (fun m : Nat => (m : Int) + 1)
        (separators.findSome? (fun sep =>
          lastOcc text sep (pyIdx text.length start) (pyIdx text.length e0))) := by
    rw [← findSome?_option_map]
    congr 1
    funext sep
    exact cutStep text sep start e0
  rw [h]
  rcases separators.findSome? (fun sep =>
      lastOcc text sep (pyIdx text.length start) (pyIdx text.length e0)) with _ | m <;> rfl

def exC2 : List Char := "a. b! cxyz".data

/-- C2 counterexample: on the text `"a. b! cxyz"` with window `[0, 7)` (whose
right edge `0 + 7` is strictly before end-of-text), the code cuts at position
`1 + 1 = 2` (the last `". "`, first pattern in order), while the claim's
"latest position over all five patterns" is the `"! "` at position `4`, giving
cut `5`.  The produced first chunk is `"a."`, not `"a. b!"`, so the claim as
stated is false. -/
theorem sepCut_counterexample_latest :
    (0 : Int) + 7 < (exC2.length : Int) ∧
    sepCut exC2 0 7 = 2 ∧ cutLatestAll exC2 0 7 = 5 ∧
    chunk_text exC2 7 0 5 = some ["a.".data, "b!".data, "cxyz".data] := by decide

theorem pyStrip_eq_nil_of_allws (l : List Char) (h : ∀ c ∈ l, isPySpace c = true) :
    pyStrip l = [] := by
  unfold pyStrip
  have h1 : l.dropWhile isPySpace = [] := List.dropWhile_eq_nil_iff.mpr h
  rw [h1]
  rfl

theorem pyStrip_has_solid_char (l : List Char) (h : pyStrip l ≠ []) :
    ∃ c ∈ pyStrip l, isPySpace c = false := by
  unfold pyStrip at *
  set m := (l.dropWhile isPySpace).reverse.dropWhile isPySpace with hm
  have hm0 : m ≠ [] := fun hnil => h (by rw [hnil]; rfl)
  refine ⟨m.head hm0, ?_, ?_⟩
  · rw [List.mem_reverse]
    exact List.head_mem hm0
  · exact List.head_dropWhile_not isPySpace _ hm0

theorem matchesAt_sub_mem (s sub : List Char) (k : Nat) (h : matchesAt s sub k = true) :
    ∀ c ∈ sub, c ∈ s := by
  intro c hc
  unfold matchesAt at h
  rw [beq_iff_eq] at h
  rw [← h] at hc
  exact List.mem_of_mem_drop (List.mem_of_mem_take hc)

theorem matchesAt_false_of_allws (text sep : List Char) (k : Nat)
    (hws : ∀ c ∈ text, isPySpace c = true) (hsep : sep ∈ separators) :
    matchesAt text sep k = false := by
  by_contra hb
  rw [Bool.not_eq_false] at hb
  have hmem := matchesAt_sub_mem text sep k hb
  simp only [separators, List.mem_cons, List.not_mem_nil, or_false] at hsep
  rcases hsep with h | h | h | h | h <;> subst h
  · exact absurd (hws '.' (hmem '.' (by simp))) (by decide)
  · exact absurd (hws '.' (hmem '.' (by simp))) (by decide)
  · exact absurd (hws '!' (hmem '!' (by simp))) (by decide)
  · exact absurd (hws '?' (hmem '?' (by simp))) (by decide)
  · exact absurd (hws '?' (hmem '?' (by simp))) (by decide)

theorem pyRfind_eq_neg_one_of_nomatch (s sub : List Char) (a b : Int)
    (h : ∀ m, matchesAt s sub m = false) : pyRfind s sub a b = -1 := by
  simp only [pyRfind]
  split
  · rw [(rfindDown_none_iff s sub _ _).mpr (fun m _ _ => h m)]
  · rfl

theorem sepCut_eq_edge_of_allws (text : List Char) (start e0 : Int)
    (hws : ∀ c ∈ text, isPySpace c = true) : sepCut text start e0 = e0 := by
  unfold sepCut
  have h : (separators.findSome? (fun sep =>
      let last := pyRfind text sep start e0
      if last ≠ -1 then some (last + 1) else none)) = none := by
    rw [List.findSome?_eq_none_iff]
    intro sep hsep
    have := pyRfind_eq_neg_one_of_nomatch text sep start e0
      (fun m => matchesAt_false_of_allws text sep m hws hsep)
    simp only [this]
    rfl
  rw [h]

theorem chunkLoop_allws (text : List Char) (cs ov : Int)
    (hws : ∀ c ∈ text, isPySpace c = true) (hov : ov < cs) :
    ∀ (fuel : Nat) (start : Int) (acc : List (List Char)),
      (text.length : Int) ≤ start + fuel →
      chunkLoop text cs ov fuel start acc = some acc := by
  intro fuel
  induction fuel with
  | zero =>
    intro start acc hb
    simp only [chunkLoop]
    rw [if_neg (by omega)]
  | succ n ih =>
    intro start acc hb
    simp only [chunkLoop]
    split
    · rename_i hlt
      have hcut : (if start + cs < (text.length : Int) then sepCut text start (start + cs)
          else start + cs) = start + cs := by
        split
        · exact sepCut_eq_edge_of_allws text start (start + cs) hws
        · rfl
      rw [hcut]
      have hchunk : pyStrip (pySlice text start (start + cs)) = [] :=
        pyStrip_eq_nil_of_allws _ (fun c hc => hws c (by
          unfold pySlice at hc
          exact List.mem_of_mem_take (List.mem_of_mem_drop hc)))
      rw [hchunk]
      simp only [List.isEmpty_nil, if_true]
      split
      · rename_i hlt2
        exact ih (start + cs - ov) acc (by omega)
      · exact ih (text.length : Int) acc (by omega)
    · rfl

theorem chunkLoop_chunks_solid (text : List Char) (cs ov : Int) :
    ∀ (fuel : Nat) (start : Int) (acc res : List (List Char)),
      (∀ ch ∈ acc, ch ≠ [] ∧ ∃ c ∈ ch, isPySpace c = false) →
      chunkLoop text cs ov fuel start acc = some res →
      ∀ ch ∈ res, ch ≠ [] ∧ ∃ c ∈ ch, isPySpace c = false := by
  intro fuel
  induction fuel with
  | zero =>
    intro start acc res hacc h
    simp only [chunkLoop] at h
    split at h
    · exact absurd h (by simp)
    · cases h; exact hacc
  | succ n ih =>
    intro start acc res hacc h
    simp only [chunkLoop] at h
    split at h
    · refine ih _ _ _ ?_ h
      have haux : ∀ Z : List Char,
          ∀ ch ∈ (if (pyStrip Z).isEmpty = true then acc else acc ++ [pyStrip Z]),
            ch ≠ [] ∧ ∃ c ∈ ch, isPySpace c = false := by
        intro Z ch hch
        split at hch
        · exact hacc ch hch
        · rename_i hne
          rcases List.mem_append.mp hch with hch2 | hch2
          · exact hacc ch hch2
          · rw [List.mem_singleton] at hch2
            subst hch2
            have hnil : pyStrip Z ≠ [] := fun hn => hne (by rw [hn]; rfl)
            exact ⟨hnil, pyStrip_has_solid_char _ hnil⟩
      exact haux _
    · cases h; exact hacc

/-- C8: for whitespace-only (or empty) input the chunker returns the empty
sequence, and for every input and every parameter choice no returned chunk is
empty or whitespace-only: each chunk is stripped, and chunks that strip to the
empty string are dropped. -/
theorem chunk_text_whitespace :
    (∀ (text : List Char) (cs ov : Int), 0 < cs → 0 ≤ ov → ov < cs →
      (∀ c ∈ text, isPySpace c = true) →
      chunk_text text cs ov (text.length + 1) = some []) ∧
    (∀ (text : List Char) (cs ov : Int) (fuel : Nat) (res : List (List Char)),
      chunk_text text cs ov fuel = some res →
      ∀ ch ∈ res, ch ≠ [] ∧ ∃ c ∈ ch, isPySpace c = false) := by
  constructor
  · intro text cs ov hcs hov0 hov hws
    unfold chunk_text
    split
    · rfl
    · exact chunkLoop_allws text cs ov hws hov (text.length + 1) 0 [] (by omega)
  · intro text cs ov fuel res h ch hch
    unfold chunk_text at h
    split at h
    · cases h
      exact absurd hch (List.not_mem_nil ch)
    · exact chunkLoop_chunks_solid text cs ov fuel 0 [] res
        (fun ch2 hch2 => absurd hch2 (List.not_mem_nil ch2)) h ch hch

/-- Witness for C8 at concrete inputs: the whitespace-only text
`" \t\n "` chunks to the empty list, and the single chunk produced from
`"ab"` is non-empty and not whitespace-only. -/
theorem chunk_text_whitespace_witness :
    chunk_text " \t\n ".data 3 1 5 = some [] ∧
    (∀ ch ∈ ["ab".data], ch ≠ [] ∧ ∃ c ∈ ch, isPySpace c = false) := by
  constructor
  · exact chunk_text_whitespace.1 " \t\n ".data 3 1 (by decide) (by decide)
      (by decide) (by decide)
  · exact chunk_text_whitespace.2 "ab".data 5 0 3 ["ab".data] (by decide)

/-!
Vector-store model.  A ChromaDB persistent client holds named collections;
each collection carries creation-time metadata and an ordered list of stored
chunk records (document text, embedding vector, per-chunk metadata).
Embedding vectors are modelled as lists of rationals and the embedding model
as an explicit function parameter.
-/

/-- Per-chunk metadata stored by `VideoProcessor.process_video`. -/
structure ChunkMeta where
  video_id : String
  video_title : String
  channel : String
  chunk_index : Nat
  total_chunks : Nat
  upload_date : String
  video_url : String
deriving DecidableEq

/-- One stored chunk: id, document text, embedding and metadata. -/
structure ChunkRec where
  id : String
  text : List Char
  emb : List ℚ
  meta : ChunkMeta
deriving DecidableEq

/-- A ChromaDB collection: collection-level metadata plus stored chunks. -/
structure Collection where
  meta : List (String × String)
  chunks : List ChunkRec
deriving DecidableEq

/-- The persistent store: an association list of named collections. -/
abbrev Store := List (String × Collection)

/-- `chroma_client.get_collection(name)`: `none` models the raised
`ValueError` when the collection does not exist. -/
def getCollection (s : Store) (name : String) : Option Collection :=
  Option.map Prod.snd (s.find? (fun p => p.1 == name))

/-- `chroma_client.get_or_create_collection(name, metadata)`: reuse the
existing collection (its metadata is NOT updated) or create an empty one with
the given metadata. -/
def getOrCreateCollection (s : Store) (name : String) (meta : List (String × String)) :
    Collection × Store :=
  match getCollection s name with
  | some c => (c, s)
  | none => (⟨meta, []⟩, s ++ [(name, (⟨meta, []⟩ : Collection))])

/-- `collection.add(...)`: append the new records to the named collection. -/
def addChunks (s : Store) (name : String) (recs : List ChunkRec) : Store :=
  s.map (fun p => if p.1 = name then (p.1, ⟨p.2.meta, p.2.chunks ++ recs⟩) else p)

/-- Result of `YouTubeAnalyzer.get_video_info`, as consumed by
`process_video`: either an error, or metadata with a description used as the
ingestible text body. -/
structure VideoInfo where
  error : Option String
  title : String
  channel : String
  upload_date : String
  description : String
deriving DecidableEq

/-- Result of `YouTubeAnalyzer.get_transcript`, as consumed by
`process_video`: only the presence of an error is inspected; the payload is
carried to show it is never used. -/
structure TranscriptInfo where
  error : Option String
  text : String
deriving DecidableEq

/-- The structured result dictionary of `VideoProcessor.process_video`. -/
inductive PVResult where
  | already_exists (video_id collection_name : String) (chunk_count : Nat)
  | failed (error : String)
  | success (video_id collection_name : String) (video_info : VideoInfo) (chunk_count : Nat)
deriving DecidableEq

/-- The error message of the description-length gate in `process_video`. -/
def noTextMsg : String := "No transcript or description available for this video"

/-- The error message of the empty-chunking gate in `process_video`. -/
def chunkFailMsg : String := "Failed to create chunks from video content"

/-- The "prepare documents and metadata" block of `process_video`: ids
`chunk_i`, the documents, their embeddings and per-chunk metadata with
contiguous `chunk_index` values. -/
def mkChunkRecs (embed : List Char → List ℚ) (vinfo : VideoInfo)
    (video_id video_url : String) (chunks : List (List Char)) : List ChunkRec :=
  (chunks.zip (chunks.map embed)).enum.map (fun p =>
    ({ id := "chunk_" ++ toString p.1
       text := p.2.1
       emb := p.2.2
       meta := { video_id := video_id, video_title := vinfo.title,
                 channel := vinfo.channel, chunk_index := p.1,
                 total_chunks := chunks.length,
                 upload_date := vinfo.upload_date, video_url := video_url } } : ChunkRec))

/-- The chunk-embed-store stage of `process_video`, reached once a usable
description is in hand: chunk the description, embed each chunk, create or
reuse the collection, and bulk-add records with contiguous chunk indices. -/
def ingest_text (embed : List Char → List ℚ) (store : Store) (vinfo : VideoInfo)
    (video_id video_url : String) (chunk_size chunk_overlap : Int) (fuel : Nat) :
    Option (PVResult × Store) :=
  let collection_name := "video_" ++ video_id
  match chunk_text vinfo.description.data chunk_size chunk_overlap fuel with
  | none => none
  | some chunks =>
    if chunks.isEmpty then some (.failed chunkFailMsg, store)
    else
      let cmeta := [("video_id", video_id), ("video_title", vinfo.title),
                    ("channel", vinfo.channel)]
      let created := getOrCreateCollection store collection_name cmeta
      let recs := mkChunkRecs embed vinfo video_id video_url chunks
      let store2 := addChunks created.2 collection_name recs
      some (.success video_id collection_name vinfo chunks.length, store2)

/-- The fetch-and-validate stage of `process_video`, run when no non-empty
collection exists yet: metadata fetch error and transcript fetch error each
short-circuit, then the description is required to be at least 50 characters
before `ingest_text` runs. -/
def process_video_fresh (embed : List Char → List ℚ) (store : Store)
    (vinfo : VideoInfo) (tinfo : TranscriptInfo) (video_id video_url : String)
    (chunk_size chunk_overlap : Int) (fuel : Nat) : Option (PVResult × Store) :=
  match vinfo.error with
  | some e => some (.failed e, store)
  | none =>
    match tinfo.error with
    | some e => some (.failed e, store)
    | none =>
      if vinfo.description = "" ∨ vinfo.description.data.length < 50 then
        some (.failed noTextMsg, store)
      else ingest_text embed store vinfo video_id video_url chunk_size chunk_overlap fuel

/-- `VideoProcessor.process_video`.  The video id is passed already derived
from the URL (`_extract_video_id` is deterministic, so equal URLs give equal
ids); the fetcher results are explicit parameters since the fetchers are
external collaborators. -/
def process_video (embed : List Char → List ℚ) (store : Store)
    (vinfo : VideoInfo) (tinfo : TranscriptInfo) (video_id video_url : String)
    (chunk_size chunk_overlap : Int) (fuel : Nat) : Option (PVResult × Store) :=
  let collection_name := "video_" ++ video_id
  match getCollection store collection_name with
  | some c =>
    if 0 < c.chunks.length then
      some (.already_exists video_id collection_name c.chunks.length, store)
    else process_video_fresh embed store vinfo tinfo video_id video_url
      chunk_size chunk_overlap fuel
  | none => process_video_fresh embed store vinfo tinfo video_id video_url
      chunk_size chunk_overlap fuel

theorem getCollection_addChunks (s : Store) (name : String) (recs : List ChunkRec) :
    getCollection (addChunks s name recs) name =
      Option.map (fun c : Collection => ⟨c.meta, c.chunks ++ recs⟩)
        (getCollection s name) := by
  induction s with
  | nil => rfl
  | cons p s ih =>
    by_cases hp : p.1 = name
    · unfold addChunks getCollection
      simp only [List.map_cons, if_pos hp]
      rw [List.find?_cons_of_pos _ (by simpa using hp),
        List.find?_cons_of_pos _ (by simpa using hp)]
      rfl
    · unfold addChunks getCollection
      simp only [List.map_cons, if_neg hp]
      rw [List.find?_cons_of_neg _ (by simpa using hp),
        List.find?_cons_of_neg _ (by simpa using hp)]
      exact ih

theorem getCollection_append_new (s : Store) (name : String) (c : Collection)
    (h : getCollection s name = none) :
    getCollection (s ++ [(name, c)]) name = some c := by
  unfold getCollection at *
  rw [List.find?_append]
  have hf : s.find? (fun p => p.1 == name) = none := by
    rcases hg : s.find? (fun p => p.1 == name) with _ | p
    · exact hg
    · rw [hg] at h
      exact absurd h (by simp)
  rw [hf]
  rw [List.find?_cons_of_pos _ (by simp)]
  rfl

theorem map_text_mkChunkRecs (embed : List Char → List ℚ) (vinfo : VideoInfo)
    (vid url : String) (chunks : List (List Char)) :
    (mkChunkRecs embed vinfo vid url chunks).map (fun r => r.text) = chunks := by
  unfold mkChunkRecs
  rw [List.map_map]
  have h1 : ((chunks.zip (chunks.map embed)).enum).map
        (fun p : Nat × (List Char × List ℚ) => p.2.1) =
      (((chunks.zip (chunks.map embed)).enum).map Prod.snd).map Prod.fst := by
    rw [List.map_map]
    rfl
  calc ((chunks.zip (chunks.map embed)).enum).map _
      = (((chunks.zip (chunks.map embed)).enum).map Prod.snd).map Prod.fst := h1
    _ = ((chunks.zip (chunks.map embed))).map Prod.fst := by rw [List.enum_map_snd]
    _ = chunks := List.map_fst_zip _ _ (le_of_eq (List.length_map _ _).symm)

theorem ingest_text_success_store (embed : List Char → List ℚ) (store : Store)
    (vinfo : VideoInfo) (vid url : String) (cs co : Int) (fuel : Nat)
    (vid2 name2 : String) (vi2 : VideoInfo) (n : Nat) (s1 : Store)
    (hpre : getCollection store ("video_" ++ vid) = none ∨
      ∃ c, getCollection store ("video_" ++ vid) = some c ∧ c.chunks = [])
    (h : ingest_text embed store vinfo vid url cs co fuel =
      some (.success vid2 name2 vi2 n, s1)) :
    ∃ chunks c2, chunk_text vinfo.description.data cs co fuel = some chunks ∧
      chunks ≠ [] ∧ n = chunks.length ∧
      getCollection s1 ("video_" ++ vid) = some c2 ∧
      c2.chunks.map (fun r => r.text) = chunks := by
  rcases hct : chunk_text vinfo.description.data cs co fuel with _ | chunks
  · unfold ingest_text at h
    rw [hct] at h
    exact Option.noConfusion h
  · unfold ingest_text at h
    simp only [hct] at h
    by_cases hne : chunks.isEmpty = true
    · rw [if_pos hne] at h
      exact absurd h (by simp [chunkFailMsg])
    · rw [if_neg hne] at h
      simp only [Option.some.injEq, Prod.mk.injEq, PVResult.success.injEq] at h
      obtain ⟨⟨hvid, hname, hvi, hn⟩, hs⟩ := h
      have hchunks_ne : chunks ≠ [] := by
        intro hnil
        rw [hnil] at hne
        exact hne rfl
      refine ⟨chunks, ?_⟩
      rcases hpre with hpre | ⟨c, hc, hcnil⟩
      · refine ⟨⟨[("video_id", vid), ("video_title", vinfo.title),
            ("channel", vinfo.channel)],
            [] ++ mkChunkRecs embed vinfo vid url chunks⟩, rfl, hchunks_ne, hn.symm, ?_, ?_⟩
        · rw [← hs]
          unfold getOrCreateCollection
          rw [hpre]
          rw [getCollection_addChunks]
          rw [getCollection_append_new _ _ _ hpre]
          rfl
        · simp only [List.nil_append]
          exact map_text_mkChunkRecs embed vinfo vid url chunks
      · refine ⟨⟨c.meta, c.chunks ++ mkChunkRecs embed vinfo vid url chunks⟩,
          rfl, hchunks_ne, hn.symm, ?_, ?_⟩
        · rw [← hs]
          unfold getOrCreateCollection
          rw [hc]
          rw [getCollection_addChunks, hc]
          rfl
        · rw [hcnil]
          simp only [List.nil_append]
          exact map_text_mkChunkRecs embed vinfo vid url chunks

theorem process_video_fresh_success (embed : List Char → List ℚ) (store : Store)
    (vinfo : VideoInfo) (tinfo : TranscriptInfo) (vid url : String)
    (cs co : Int) (fuel : Nat) (vid2 name2 : String) (vi2 : VideoInfo)
    (n : Nat) (s1 : Store)
    (hpre : getCollection store ("video_" ++ vid) = none ∨
      ∃ c, getCollection store ("video_" ++ vid) = some c ∧ c.chunks = [])
    (h : process_video_fresh embed store vinfo tinfo vid url cs co fuel =
      some (.success vid2 name2 vi2 n, s1)) :
    vinfo.error = none ∧ tinfo.error = none ∧
      ∃ chunks c2, chunk_text vinfo.description.data cs co fuel = some chunks ∧
        chunks ≠ [] ∧ n = chunks.length ∧
        getCollection s1 ("video_" ++ vid) = some c2 ∧
        c2.chunks.map (fun r => r.text) = chunks := by
  unfold process_video_fresh at h
  rcases hv : vinfo.error with _ | e
  · rcases ht : tinfo.error with _ | e
    · simp only [hv, ht] at h
      by_cases hd : (vinfo.description = "" ∨ vinfo.description.data.length < 50)
      · rw [if_pos hd] at h
        exact absurd h (by simp [noTextMsg])
      · rw [if_neg hd] at h
        exact ⟨rfl, rfl, ingest_text_success_store embed store vinfo vid url cs co fuel
          vid2 name2 vi2 n s1 hpre h⟩
    · simp only [hv, ht] at h
      exact absurd h (by simp)
  · simp only [hv] at h
    exact absurd h (by simp)

theorem process_video_success_elim (embed : List Char → List ℚ) (store : Store)
    (vinfo : VideoInfo) (tinfo : TranscriptInfo) (vid url : String)
    (cs co : Int) (fuel : Nat) (vid2 name2 : String) (vi2 : VideoInfo)
    (n : Nat) (s1 : Store)
    (h : process_video embed store vinfo tinfo vid url cs co fuel =
      some (.success vid2 name2 vi2 n, s1)) :
    ∃ chunks c2, chunk_text vinfo.description.data cs co fuel = some chunks ∧
      chunks ≠ [] ∧ n = chunks.length ∧
      getCollection s1 ("video_" ++ vid) = some c2 ∧
      c2.chunks.map (fun r => r.text) = chunks := by
  unfold process_video at h
  rcases hg : getCollection store ("video_" ++ vid) with _ | c
  · simp only [hg] at h
    exact (process_video_fresh_success embed store vinfo tinfo vid url cs co fuel
      vid2 name2 vi2 n s1 (Or.inl hg) h).2.2
  · simp only [hg] at h
    by_cases hpos : 0 < c.chunks.length
    · rw [if_pos hpos] at h
      exact absurd h (by simp)
    · rw [if_neg hpos] at h
      have hnil : c.chunks = [] := List.length_eq_zero.mp (by omega)
      exact (process_video_fresh_success embed store vinfo tinfo vid url cs co fuel
        vid2 name2 vi2 n s1 (Or.inr ⟨c, hg, hnil⟩) h).2.2

/-- C3: ingestion is idempotent per video id.  If a `process_video` run
succeeded — thereby storing at least one chunk under the derived id — then any
second `process_video` call for the same id (whatever its fetched metadata,
transcript, chunking parameters or fuel) returns `already_exists` reporting
the stored chunk count, and leaves the store completely unchanged: nothing is
appended or duplicated without an explicit delete. -/
theorem process_video_idempotent (embed embed2 : List Char → List ℚ)
    (store : Store) (vinfo vinfo2 : VideoInfo) (tinfo tinfo2 : TranscriptInfo)
    (vid url url2 : String) (cs co cs2 co2 : Int) (fuel fuel2 : Nat)
    (vid2 name2 : String) (vi2 : VideoInfo) (n : Nat) (s1 : Store)
    (h : process_video embed store vinfo tinfo vid url cs co fuel =
      some (.success vid2 name2 vi2 n, s1)) :
    process_video embed2 s1 vinfo2 tinfo2 vid url2 cs2 co2 fuel2 =
      some (.already_exists vid ("video_" ++ vid) n, s1) := by
  obtain ⟨chunks, c2, hct, hne, hn, hgc, hmap⟩ :=
    process_video_success_elim embed store vinfo tinfo vid url cs co fuel
      vid2 name2 vi2 n s1 h
  have hlen : c2.chunks.length = n := by
    have := congrArg List.length hmap
    rw [List.length_map] at this
    omega
  have hpos : 0 < c2.chunks.length := by
    have := List.length_pos.mpr hne
    omega
  unfold process_video
  simp only [hgc]
  rw [if_pos hpos, hlen]

/-- A trivial embedding model for concrete witnesses. -/
def embed0 : List Char → List ℚ := fun _ => [0]

/-- A 60-character description, long enough to pass the 50-character gate. -/
def desc60 : String := "aaaaaaaaaaaaaaaaaaaaaaaaaaaaaaaaaaaaaaaaaaaaaaaaaaaaaaaaaaaa"

/-- Successful metadata fetch used in witnesses. -/
def vinfo0 : VideoInfo := ⟨none, "T", "Ch", "2024", desc60⟩

/-- Successful transcript fetch used in witnesses. -/
def tinfo0 : TranscriptInfo := ⟨none, ""⟩

/-- The store produced by ingesting `vinfo0` under video id `abc`. -/
def st1C3 : Store :=
  [("video_abc",
    ⟨[("video_id", "abc"), ("video_title", "T"), ("channel", "Ch")],
     [⟨"chunk_0", desc60.data, [0], ⟨"abc", "T", "Ch", 0, 1, "2024", "u"⟩⟩]⟩)]

example : desc60.data.length = 60 := by decide

/-- Witness for C3: a concrete first ingestion succeeds with one stored chunk,
and the theorem then gives `already_exists` with count 1 and an unchanged
store on the second call. -/
theorem process_video_idempotent_witness :
    process_video embed0 [] vinfo0 tinfo0 "abc" "u" 500 50 2 =
      some (.success "abc" "video_abc" vinfo0 1, st1C3) ∧
    process_video embed0 st1C3 vinfo0 tinfo0 "abc" "u" 500 50 2 =
      some (.already_exists "abc" "video_abc" 1, st1C3) := by
  constructor
  · decide
  · exact process_video_idempotent embed0 embed0 [] vinfo0 vinfo0 tinfo0 tinfo0
      "abc" "u" "u" 500 50 500 50 2 2 "abc" "video_abc" vinfo0 1 st1C3 (by decide)

theorem process_video_eq_fresh (embed : List Char → List ℚ) (store : Store)
    (vinfo : VideoInfo) (tinfo : TranscriptInfo) (vid url : String)
    (cs co : Int) (fuel : Nat)
    (hpre : getCollection store ("video_" ++ vid) = none ∨
      ∃ c, getCollection store ("video_" ++ vid) = some c ∧ c.chunks = []) :
    process_video embed store vinfo tinfo vid url cs co fuel =
      process_video_fresh embed store vinfo tinfo vid url cs co fuel := by
  unfold process_video
  rcases hpre with hg | ⟨c, hg, hnil⟩
  · simp only [hg]
  · simp only [hg]
    rw [if_neg (by rw [hnil]; simp)]

/-- C9: with both fetches succeeding and no previously stored chunks,
`process_video` fails with the "no transcript or description available" error
exactly when the fetched description is shorter than 50 characters — even a
non-empty short description is rejected — and with at least 50 characters it
proceeds to the chunk-embed-store stage (`ingest_text`). -/
theorem process_video_short_description (embed : List Char → List ℚ)
    (store : Store) (vinfo : VideoInfo) (tinfo : TranscriptInfo)
    (vid url : String) (cs co : Int) (fuel : Nat)
    (hpre : getCollection store ("video_" ++ vid) = none ∨
      ∃ c, getCollection store ("video_" ++ vid) = some c ∧ c.chunks = [])
    (hv : vinfo.error = none) (ht : tinfo.error = none) :
    (vinfo.description.data.length < 50 →
      process_video embed store vinfo tinfo vid url cs co fuel =
        some (.failed noTextMsg, store)) ∧
    (50 ≤ vinfo.description.data.length →
      process_video embed store vinfo tinfo vid url cs co fuel =
        ingest_text embed store vinfo vid url cs co fuel) := by
  rw [process_video_eq_fresh embed store vinfo tinfo vid url cs co fuel hpre]
  unfold process_video_fresh
  simp only [hv, ht]
  constructor
  · intro hlt
    rw [if_pos (Or.inr hlt)]
  · intro hge
    rw [if_neg ?_]
    rintro (hemp | hlt)
    · rw [hemp] at hge
      exact absurd hge (by decide)
    · omega

/-- A 49-character, non-empty description: long enough to be non-empty, short
enough to be rejected by the 50-character gate. -/
def desc49 : String := "aaaaaaaaaaaaaaaaaaaaaaaaaaaaaaaaaaaaaaaaaaaaaaaaa"

/-- Metadata fetch with a 49-character description. -/
def vinfo49 : VideoInfo := ⟨none, "T", "Ch", "2024", desc49⟩

/-- Witness for C9: the non-empty 49-character description is rejected with
the no-text error and an unchanged store, while the 60-character description
reaches the chunking stage. -/
theorem process_video_short_description_witness :
    desc49 ≠ "" ∧
    process_video embed0 [] vinfo49 tinfo0 "abc" "u" 500 50 2 =
      some (.failed noTextMsg, []) ∧
    process_video embed0 [] vinfo0 tinfo0 "abc" "u" 500 50 2 =
      ingest_text embed0 [] vinfo0 "abc" "u" 500 50 2 := by
  refine ⟨by decide, ?_, ?_⟩
  · exact (process_video_short_description embed0 [] vinfo49 tinfo0 "abc" "u"
      500 50 2 (Or.inl rfl) rfl rfl).1 (by decide)
  · exact (process_video_short_description embed0 [] vinfo0 tinfo0 "abc" "u"
      500 50 2 (Or.inl rfl) rfl rfl).2 (by decide)

/-- C10: the transcript fetch gates ingestion but its payload is never the
ingested body.  First conjunct: a transcript-fetch error short-circuits
`process_video` to a `failed` result carrying that error, with the store
unchanged.  Second conjunct: every successful ingestion stores exactly the
chunks of the video DESCRIPTION as the document texts.  Third conjunct: the
result of `process_video` depends on the transcript fetch only through its
error field — the transcript text itself is never used. -/
theorem process_video_transcript_unused :
    (∀ (embed : List Char → List ℚ) (store : Store) (vinfo : VideoInfo)
        (tinfo : TranscriptInfo) (vid url : String) (cs co : Int) (fuel : Nat)
        (e : String),
      (getCollection store ("video_" ++ vid) = none ∨
        ∃ c, getCollection store ("video_" ++ vid) = some c ∧ c.chunks = []) →
      vinfo.error = none → tinfo.error = some e →
      process_video embed store vinfo tinfo vid url cs co fuel =
        some (.failed e, store)) ∧
    (∀ (embed : List Char → List ℚ) (store : Store) (vinfo : VideoInfo)
        (tinfo : TranscriptInfo) (vid url : String) (cs co : Int) (fuel : Nat)
        (vid2 name2 : String) (vi2 : VideoInfo) (n : Nat) (s1 : Store),
      process_video embed store vinfo tinfo vid url cs co fuel =
        some (.success vid2 name2 vi2 n, s1) →
      ∃ chunks c2, chunk_text vinfo.description.data cs co fuel = some chunks ∧
        getCollection s1 ("video_" ++ vid) = some c2 ∧
        c2.chunks.map (fun r => r.text) = chunks) ∧
    (∀ (embed : List Char → List ℚ) (store : Store) (vinfo : VideoInfo)
        (t1 t2 : TranscriptInfo) (vid url : String) (cs co : Int) (fuel : Nat),
      t1.error = t2.error →
      process_video embed store vinfo t1 vid url cs co fuel =
        process_video embed store vinfo t2 vid url cs co fuel) := by
  refine ⟨?_, ?_, ?_⟩
  · intro embed store vinfo tinfo vid url cs co fuel e hpre hv hte
    rw [process_video_eq_fresh embed store vinfo tinfo vid url cs co fuel hpre]
    unfold process_video_fresh
    simp only [hv, hte]
  · intro embed store vinfo tinfo vid url cs co fuel vid2 name2 vi2 n s1 h
    obtain ⟨chunks, c2, hct, hne, hn, hgc, hmap⟩ :=
      process_video_success_elim embed store vinfo tinfo vid url cs co fuel
        vid2 name2 vi2 n s1 h
    exact ⟨chunks, c2, hct, hgc, hmap⟩
  · intro embed store vinfo t1 t2 vid url cs co fuel hte
    unfold process_video process_video_fresh
    rw [hte]

/-- A failing transcript fetch used in the C10 witness. -/
def tinfoE : TranscriptInfo := ⟨some "boom", "ignored"⟩

/-- Witness for C10 at concrete inputs: a transcript error short-circuits with
the store unchanged; the concrete successful run of C3 stores the description
chunks; two transcript fetches differing only in payload give identical
results. -/
theorem process_video_transcript_unused_witness :
    process_video embed0 [] vinfo0 tinfoE "abc" "u" 500 50 2 =
      some (.failed "boom", []) ∧
    (∃ chunks c2, chunk_text desc60.data 500 50 2 = some chunks ∧
      getCollection st1C3 "video_abc" = some c2 ∧
      c2.chunks.map (fun r => r.text) = chunks) ∧
    process_video embed0 [] vinfo0 (⟨none, "x"⟩ : TranscriptInfo) "abc" "u" 500 50 2 =
      process_video embed0 [] vinfo0 (⟨none, "y"⟩ : TranscriptInfo) "abc" "u" 500 50 2 := by
  refine ⟨?_, ?_, ?_⟩
  · exact process_video_transcript_unused.1 embed0 [] vinfo0 tinfoE "abc" "u"
      500 50 2 "boom" (Or.inl rfl) rfl rfl
  · exact process_video_transcript_unused.2.1 embed0 [] vinfo0 tinfo0 "abc" "u"
      500 50 2 "abc" "video_abc" vinfo0 1 st1C3 (by decide)
  · exact process_video_transcript_unused.2.2 embed0 [] vinfo0 ⟨none, "x"⟩
      ⟨none, "y"⟩ "abc" "u" 500 50 2 rfl

/-!
Question-answering engine model (`QAEngine.answer_question`).  The embedding
model and the vector distance are explicit function parameters; the Ollama
availability probe is a boolean; the generative call is a function returning
either a response or an error (an exception).
-/

/-- One entry of the `sources` list returned by `answer_question`. -/
structure SourceEntry where
  chunk_index : Nat
  timestamp : String
  text_preview : List Char
  relevance_score : ℚ
deriving DecidableEq

/-- The structured result dictionary of `QAEngine.answer_question`. -/
inductive QAResult where
  | error (msg : String)
  | no_context (answer : String) (sources : List SourceEntry)
  | no_llm (answer : String) (sources : List SourceEntry) (video_title video_id : String)
  | success (answer : String) (sources : List SourceEntry)
      (video_title video_id model_used : String)
  | llm_error (answer : String) (sources : List SourceEntry)
      (video_title video_id error : String)
deriving DecidableEq

/-- Stable insertion of a scored chunk into a distance-ascending list. -/
def insertByDist (x : ChunkRec × ℚ) : List (ChunkRec × ℚ) → List (ChunkRec × ℚ)
  | [] => [x]
  | y :: ys => if x.2 < y.2 then x :: y :: ys else y :: insertByDist x ys

/-- Stable sort of scored chunks by ascending distance. -/
def sortByDist : List (ChunkRec × ℚ) → List (ChunkRec × ℚ)
  | [] => []
  | x :: xs => insertByDist x (sortByDist xs)

/-- `collection.query(query_embeddings, n_results)`: rank the stored chunks by
distance to the query embedding, ascending, and return the first `n` together
with their distances. -/
def queryCollection (dist : List ℚ → List ℚ → ℚ) (c : Collection) (qemb : List ℚ)
    (n : Nat) : List (ChunkRec × ℚ) :=
  (sortByDist (c.chunks.map (fun r => (r, dist qemb r.emb)))).take n

theorem length_insertByDist (x : ChunkRec × ℚ) (l : List (ChunkRec × ℚ)) :
    (insertByDist x l).length = l.length + 1 := by
  induction l with
  | nil => rfl
  | cons y ys ih =>
    unfold insertByDist
    split
    · rfl
    · simp only [List.length_cons, ih]

theorem length_sortByDist (l : List (ChunkRec × ℚ)) :
    (sortByDist l).length = l.length := by
  induction l with
  | nil => rfl
  | cons x xs ih =>
    unfold sortByDist
    rw [length_insertByDist, ih]
    rfl

/-- Python `dict.get(key, default)` on collection metadata. -/
def lookupD (l : List (String × String)) (k d : String) : String :=
  match l.find? (fun p => p.1 == k) with
  | some p => p.2
  | none => d

/-- The per-chunk context block: `CONTEXT_CHUNK_TEMPLATE` instantiated with
the ordinal position marker and the chunk text. -/
def contextBlock (r : ChunkRec) : String :=
  "[Part " ++ toString (r.meta.chunk_index + 1) ++ "] " ++ String.mk r.text

/-- The full context: the labeled blocks joined by blank lines. -/
def contextOf (results : List (ChunkRec × ℚ)) : String :=
  String.intercalate "\n\n" (results.map (fun p => contextBlock p.1))

/-- One `sources` entry as built in the retrieval loop: ordinal label
`Part (chunk_index + 1)`, a preview of the first 100 characters with an
ellipsis when the chunk is longer, and relevance `1 - distance`. -/
def mkSource (p : ChunkRec × ℚ) : SourceEntry :=
  { chunk_index := p.1.meta.chunk_index
    timestamp := "Part " ++ toString (p.1.meta.chunk_index + 1)
    text_preview := if p.1.text.length > 100 then p.1.text.take 100 ++ "...".data
                    else p.1.text
    relevance_score := 1 - p.2 }

/-- The `sources` list accompanying a non-error answer. -/
def sourcesOf (results : List (ChunkRec × ℚ)) : List SourceEntry :=
  results.map mkSource

/-- `NO_CONTEXT_RESPONSE` from `prompts.py`. -/
def NO_CONTEXT_RESPONSE : String :=
  "I don\x27t have enough information from the video transcript to answer that question. The video might not cover that topic, or the transcript might be incomplete."

/-- The fixed warning prefix of the `no_llm` degraded answer. -/
def noLlmWarning : String :=
  "⚠️ Ollama is not available. Here\x27s the relevant context from the video:\n\n"

/-- The error message returned when the collection does not exist; the
parenthesised part carries the underlying store exception text. -/
def videoNotFoundMsg (name : String) : String :=
  "Video not found. Please process the video first. (Collection " ++ name ++
    " does not exist.)"

/-- The degraded answer built when the generative call raises. -/
def llmErrorAnswer (e context : String) : String :=
  "⚠️ Error generating answer: " ++ e ++ "\n\nRelevant context:\n\n" ++ context

/-- `QA_PROMPT_TEMPLATE` from `prompts.py`, instantiated. -/
def buildPrompt (video_title channel context question : String) : String :=
  "Video: " ++ video_title ++ "\nChannel: " ++ channel ++
  "\n\nContext from video transcript:\n" ++ context ++
  "\n\nQuestion: " ++ question ++
  "\n\nAnswer the question based on the context above. Include relevant timestamps in your response."

/-- `QAEngine.answer_question`: resolve the collection, embed the question,
query for `min(top_k, count)` chunks, then either report no context, degrade
without the generative backend, degrade on a generation error, or succeed. -/
def answer_question (embed : List Char → List ℚ) (dist : List ℚ → List ℚ → ℚ)
    (store : Store) (ollama_ok : Bool) (generate : String → Except String String)
    (llm_model : String) (top_k : Nat) (question video_id : String) : QAResult :=
  let collection_name := "video_" ++ video_id
  match getCollection store collection_name with
  | none => .error (videoNotFoundMsg collection_name)
  | some c =>
    let video_title := lookupD c.meta "video_title" "Unknown"
    let channel := lookupD c.meta "channel" "Unknown"
    let question_embedding := embed question.data
    let results := queryCollection dist c question_embedding (min top_k c.chunks.length)
    if results.isEmpty then .no_context NO_CONTEXT_RESPONSE []
    else
      let sources := sourcesOf results
      let context := contextOf results
      let prompt := buildPrompt video_title channel context question
      if ollama_ok then
        match generate prompt with
        | .ok resp =>
          .success (String.mk (pyStrip resp.data)) sources video_title video_id llm_model
        | .error e => .llm_error (llmErrorAnswer e context) sources video_title video_id e
      else .no_llm (noLlmWarning ++ context) sources video_title video_id

/-- C4: the engine asks the store for exactly `min(top_k, stored chunk
count)` results — the argument `answer_question` passes to the query — so the
number of retrieved results is `min(top_k, count)`, and a `top_k` exceeding
the stored count yields exactly the stored count rather than an error. -/
theorem queryCollection_clamps (dist : List ℚ → List ℚ → ℚ) (c : Collection)
    (qemb : List ℚ) (top_k : Nat) :
    (queryCollection dist c qemb (min top_k c.chunks.length)).length =
      min top_k c.chunks.length ∧
    (c.chunks.length ≤ top_k →
      (queryCollection dist c qemb (min top_k c.chunks.length)).length =
        c.chunks.length) := by
  have hlen : ∀ n : Nat, (queryCollection dist c qemb n).length =
      min n c.chunks.length := by
    intro n
    unfold queryCollection
    rw [List.length_take, length_sortByDist, List.length_map]
  constructor
  · rw [hlen]
    omega
  · intro h
    rw [hlen]
    omega

/-- A trivial distance function for concrete witnesses. -/
def dist0 : List ℚ → List ℚ → ℚ := fun _ _ => 0

/-- A generative backend that always raises, for concrete witnesses. -/
def gen0 : String → Except String String := fun _ => .error "down"

/-- Chunk metadata of the first witness chunk. -/
def metaA : ChunkMeta := ⟨"v", "T", "Ch", 0, 2, "2024", "u"⟩

/-- Chunk metadata of the second witness chunk. -/
def metaB : ChunkMeta := ⟨"v", "T", "Ch", 1, 2, "2024", "u"⟩

/-- First witness chunk. -/
def recA : ChunkRec := ⟨"chunk_0", "hello".data, [0], metaA⟩

/-- Second witness chunk. -/
def recB : ChunkRec := ⟨"chunk_1", "world".data, [0], metaB⟩

/-- A stored collection with two chunks, for witnesses. -/
def collAB : Collection := ⟨[("video_title", "T"), ("channel", "Ch")], [recA, recB]⟩

/-- A store holding `collAB` under video id `v`. -/
def stQA : Store := [("video_v", collAB)]

/-- Witness for C4: with 2 stored chunks and `top_k = 5`, the query returns
exactly 2 results. -/
theorem queryCollection_clamps_witness :
    collAB.chunks.length ≤ 5 ∧
    (queryCollection dist0 collAB [0] (min 5 collAB.chunks.length)).length = 2 :=
  ⟨by decide, (queryCollection_clamps dist0 collAB [0] 5).2 (by decide)⟩

/-- C5: when the collection resolves and retrieval returns at least one chunk
but the generative backend is unavailable, `answer_question` returns status
`no_llm` whose answer is the fixed warning prefix followed by the concatenated
labeled context blocks, and whose sources list is non-empty — the retrieved
evidence is never dropped. -/
theorem answer_question_no_llm_degrades (embed : List Char → List ℚ)
    (dist : List ℚ → List ℚ → ℚ) (store : Store)
    (generate : String → Except String String) (llm_model : String)
    (top_k : Nat) (question vid : String) (c : Collection)
    (hc : getCollection store ("video_" ++ vid) = some c)
    (hres : queryCollection dist c (embed question.data)
      (min top_k c.chunks.length) ≠ []) :
    answer_question embed dist store false generate llm_model top_k question vid =
      QAResult.no_llm
        (noLlmWarning ++ contextOf (queryCollection dist c (embed question.data)
          (min top_k c.chunks.length)))
        (sourcesOf (queryCollection dist c (embed question.data)
          (min top_k c.chunks.length)))
        (lookupD c.meta "video_title" "Unknown") vid ∧
    sourcesOf (queryCollection dist c (embed question.data)
      (min top_k c.chunks.length)) ≠ [] := by
  constructor
  · unfold answer_question
    simp only [hc]
    rw [if_neg (fun hE => hres (List.isEmpty_iff.mp hE))]
    rfl
  · intro hmap
    apply hres
    unfold sourcesOf at hmap
    exact List.map_eq_nil_iff.mp hmap

/-- Witness for C5: on the concrete two-chunk store with the backend down, the
engine returns `no_llm` with both labeled blocks and a non-empty sources
list. -/
theorem answer_question_no_llm_degrades_witness :
    answer_question embed0 dist0 stQA false gen0 "llama3.2" 5 "q" "v" =
      QAResult.no_llm
        (noLlmWarning ++ contextOf (queryCollection dist0 collAB (embed0 "q".data)
          (min 5 collAB.chunks.length)))
        (sourcesOf (queryCollection dist0 collAB (embed0 "q".data)
          (min 5 collAB.chunks.length)))
        "T" "v" ∧
    sourcesOf (queryCollection dist0 collAB (embed0 "q".data)
      (min 5 collAB.chunks.length)) ≠ [] :=
  answer_question_no_llm_degrades embed0 dist0 stQA gen0 "llama3.2" 5 "q" "v"
    collAB rfl (by decide)

/-- C6: asking about a video id with no stored collection yields status
`error` with a human-readable reason, raises nothing across the boundary (the
result is an ordinary value), and performs no further work: the result is the
same whatever the embedding model, distance, backend availability, generative
backend or top-k — none of them is consulted. -/
theorem answer_question_missing_video (store : Store) (question vid : String)
    (h : getCollection store ("video_" ++ vid) = none) :
    ∀ (embed : List Char → List ℚ) (dist : List ℚ → List ℚ → ℚ)
      (ollama_ok : Bool) (generate : String → Except String String)
      (llm_model : String) (top_k : Nat),
      answer_question embed dist store ollama_ok generate llm_model top_k
          question vid =
        QAResult.error (videoNotFoundMsg ("video_" ++ vid)) := by
  intro embed dist ollama_ok generate llm_model top_k
  unfold answer_question
  simp only [h]

/-- Witness for C6: the empty store holds no collection for id `v`, and the
engine reports the video-not-found error. -/
theorem answer_question_missing_video_witness :
    answer_question embed0 dist0 [] true gen0 "llama3.2" 5 "q" "v" =
      QAResult.error (videoNotFoundMsg "video_v") :=
  answer_question_missing_video [] "q" "v" rfl embed0 dist0 true gen0 "llama3.2" 5

/-- C7: the `i`-th sources entry built from the `i`-th retrieved chunk carries
the ordinal label `Part (chunk_index + 1)`, relevance `1 - distance`, and a
preview equal to the first 100 characters followed by an ellipsis when the
chunk text is longer than 100 characters, and the whole text otherwise; the
sources list is index-aligned with the retrieved results. -/
theorem sourcesOf_fields (results : List (ChunkRec × ℚ)) (i : Nat)
    (r : ChunkRec) (d : ℚ) (h : results[i]? = some (r, d)) :
    (sourcesOf results).length = results.length ∧
    (sourcesOf results)[i]? = some
      { chunk_index := r.meta.chunk_index
        timestamp := "Part " ++ toString (r.meta.chunk_index + 1)
        text_preview := if r.text.length > 100 then r.text.take 100 ++ "...".data
                        else r.text
        relevance_score := 1 - d } := by
  constructor
  · unfold sourcesOf
    exact List.length_map _ _
  · unfold sourcesOf
    rw [List.getElem?_map, h]
    rfl

/-- A chunk whose text is 101 characters long, to exercise the truncated
preview. -/
def recLong : ChunkRec :=
  ⟨"chunk_1",
   "bbbbbbbbbbbbbbbbbbbbbbbbbbbbbbbbbbbbbbbbbbbbbbbbbbbbbbbbbbbbbbbbbbbbbbbbbbbbbbbbbbbbbbbbbbbbbbbbbbb".data,
   [0], metaB⟩

/-- Witness for C7 on a concrete retrieval with one 101-character chunk at
distance one half. -/
theorem sourcesOf_fields_witness :
    (sourcesOf [(recLong, (1 : ℚ) / 2)]).length = 1 ∧
    (sourcesOf [(recLong, (1 : ℚ) / 2)])[0]? = some
      { chunk_index := recLong.meta.chunk_index
        timestamp := "Part " ++ toString (recLong.meta.chunk_index + 1)
        text_preview := if recLong.text.length > 100 then
            recLong.text.take 100 ++ "...".data
          else recLong.text
        relevance_score := 1 - (1 : ℚ) / 2 } :=
  sourcesOf_fields [(recLong, (1 : ℚ) / 2)] 0 recLong ((1 : ℚ) / 2) rfl
